import Mathlib

/-!
# ChronoProfiler: shallow embedding and verification

This file embeds the `ChronoProfiler` class of the repository
(`src/ChronoProfiler.cpp`, `include/ChronoProfiler.hpp`) in Lean 4 and
proves/refutes the specified properties of its frame-merge engine.

Modelling conventions:
* Thread identities are abstract naturals (`Tid := Nat`).  The C++ code keys
  thread-local storage by `std::this_thread::get_id()`; every operation that
  the calling thread performs carries its `Tid` explicitly.
* `std::hash<std::thread::id>` is implementation-defined; it is modelled as the
  identity on the abstract key.  The `static_cast<uint32_t>` truncation that
  the source applies on top of it is kept (`% 2 ^ 32`).
* Wall-clock reads (`nowMs()`, `high_resolution_clock::now()`) are modelled by
  passing the observed timestamp as an explicit `ℤ` parameter of each
  operation; the `double` millisecond values of the source are modelled as
  exact integers (the claims under study concern control flow, ordering and
  signs, not floating-point rounding).
* The mutexes serialize access in the source; the embedding replays the
  operations of all threads as one interleaved sequence (`List Op`), which is
  exactly the behaviour the locks guarantee for the shared state.
-/

namespace ChronoProfiler

/-- Abstract identity of an OS thread (`std::thread::id`). -/
abbrev Tid := Nat

/-- Model of `static_cast<uint32_t>(std::hash<std::thread::id>{}(id))`:
the implementation-defined hash is taken to be the identity on the abstract
key, and the 32-bit truncation of the cast is kept. -/
def hashTid (t : Tid) : Nat := t % 2 ^ 32

/-- `ChronoProfiler::Event` (include/ChronoProfiler.hpp): one timed zone. -/
structure Event where
  name : String
  startMs : ℤ
  durationMs : ℤ
  threadId : Nat
  color : Nat
  category : String
deriving Repr, DecidableEq

/-- `kMaxEventsPerThread` (include/ChronoProfiler.hpp, line 212). -/
def kMaxEventsPerThread : Nat := 1024

/-- Pointwise update of a per-thread log table (a `thread_local` vector is a
slot of this table). -/
def updLog (f : Tid → List Event) (t : Tid) (v : List Event) : Tid → List Event :=
  fun x => if x = t then v else f x

/-- The static storage of `ChronoProfiler` (ChronoProfiler.cpp, lines 36-61):
`threadEvents` (all the per-thread `thread_local` vectors, as a table),
`frameEvents`, `threadNames`, `frameStart`, `totalEventCount`, and
`allThreadBuffers` (the registration-order list of thread keys). -/
@[ext]
structure ProfilerState where
  threadEvents : Tid → List Event
  frameEvents : List Event
  threadNames : Nat → Option String
  frameStart : ℤ
  allThreadBuffers : List Tid
  totalEventCount : Nat

/-- Static initialization: empty logs, empty merge buffer, no names, epoch
frame start, empty registry. -/
def initialState : ProfilerState :=
  { threadEvents := fun _ => []
    frameEvents := []
    threadNames := fun _ => none
    frameStart := 0
    allThreadBuffers := []
    totalEventCount := 0 }

/-- `ChronoProfiler::beginFrame` (ChronoProfiler.cpp, lines 95-101):
records `frameStart = now`, clears `frameEvents`, resets the counter. -/
def beginFrame (now : ℤ) (s : ProfilerState) : ProfilerState :=
  { s with frameStart := now, frameEvents := [], totalEventCount := 0 }

/-- One iteration of the merge loop in `endFrame`: append `buffer` to
`frameEvents`, then clear the buffer. -/
def mergeStep (acc : (Tid → List Event) × List Event) (t : Tid) :
    (Tid → List Event) × List Event :=
  (updLog acc.1 t [], acc.2 ++ acc.1 t)

/-- `ChronoProfiler::endFrame` (ChronoProfiler.cpp, lines 112-119): for every
registered buffer, in registration order, append its contents to `frameEvents`
and clear it in place.  Note: `frameEvents` is NOT cleared here. -/
def endFrame (s : ProfilerState) : ProfilerState :=
  let r := s.allThreadBuffers.foldl mergeStep (s.threadEvents, s.frameEvents)
  { s with threadEvents := r.1, frameEvents := r.2 }

/-- `ChronoProfiler::pushEventStart` (ChronoProfiler.cpp, lines 140-163):
register the calling thread's buffer on first use (once-per-thread guard),
then drop the call if the buffer already holds `kMaxEventsPerThread` events,
otherwise append an unfinalized event (`durationMs = -1`) stamped with the
absolute start time and the hashed thread id. -/
def pushStart (t : Tid) (name : String) (color : Nat) (category : String)
    (now : ℤ) (s : ProfilerState) : ProfilerState :=
  let s1 : ProfilerState :=
    if t ∈ s.allThreadBuffers then s
    else { s with allThreadBuffers := s.allThreadBuffers ++ [t] }
  if kMaxEventsPerThread ≤ (s1.threadEvents t).length then s1
  else
    let evt : Event :=
      { name := name, startMs := now, durationMs := -1
        threadId := hashTid t, color := color, category := category }
    { s1 with
        threadEvents := updLog s1.threadEvents t (s1.threadEvents t ++ [evt])
        totalEventCount := s1.totalEventCount + 1 }

/-- The in-place rewrite `pushEventEnd` performs on `threadEvents.back()`:
`durationMs = now - startMs` (using the old `startMs`), then
`startMs -= frameStart`. -/
def finalizeEvt (frameStart now : ℤ) (e : Event) : Event :=
  { e with durationMs := now - e.startMs, startMs := e.startMs - frameStart }

/-- Rewrite the last element of a list in place. -/
def modifyBack (f : Event → Event) : List Event → List Event
  | [] => []
  | [e] => [f e]
  | e :: e2 :: rest => e :: modifyBack f (e2 :: rest)

/-- `ChronoProfiler::pushEventEnd` (ChronoProfiler.cpp, lines 174-185):
no-op on an empty buffer; otherwise rewrites `threadEvents.back()` —
unconditionally, whether or not that event is still unfinalized. -/
def pushEnd (t : Tid) (now : ℤ) (s : ProfilerState) : ProfilerState :=
  if (s.threadEvents t).isEmpty then s
  else
    { s with
        threadEvents :=
          updLog s.threadEvents t
            (modifyBack (finalizeEvt s.frameStart now) (s.threadEvents t)) }

/-- `ChronoProfiler::setThreadName` (ChronoProfiler.cpp, lines 212-217):
`threadNames[hash(this_thread)] = name`. -/
def setThreadName (t : Tid) (name : String) (s : ProfilerState) : ProfilerState :=
  { s with
      threadNames := fun id => if id = hashTid t then some name else s.threadNames id }

/-- `ChronoProfiler::getThreadName` (ChronoProfiler.cpp, lines 224-228). -/
def getThreadName (s : ProfilerState) (threadId : Nat) : String :=
  match s.threadNames threadId with
  | some n => n
  | none => "<unnamed>"

/-- `ChronoProfiler::getEvents` (ChronoProfiler.cpp, lines 197-199). -/
def getEvents (s : ProfilerState) : List Event := s.frameEvents

/-- One API call of the profiler, tagged with the calling thread and the
timestamp the wall clock returned during the call. -/
inductive Op where
  | opBeginFrame (now : ℤ)
  | opEndFrame
  | opPushStart (t : Tid) (name : String) (color : Nat) (category : String) (now : ℤ)
  | opPushEnd (t : Tid) (now : ℤ)
  | opSetThreadName (t : Tid) (name : String)
deriving Repr, DecidableEq

/-- Interpret one operation. -/
def step (s : ProfilerState) : Op → ProfilerState
  | .opBeginFrame now => beginFrame now s
  | .opEndFrame => endFrame s
  | .opPushStart t n c cat now => pushStart t n c cat now s
  | .opPushEnd t now => pushEnd t now s
  | .opSetThreadName t n => setThreadName t n s

/-- Replay an interleaved sequence of API calls. -/
def run (s : ProfilerState) (ops : List Op) : ProfilerState := ops.foldl step s

/-! ## Basic lemmas about the embedding -/

theorem updLog_same (f : Tid → List Event) (t : Tid) (v : List Event) :
    updLog f t v t = v := by
  simp [updLog]

theorem updLog_other (f : Tid → List Event) (t : Tid) (v : List Event)
    (x : Tid) (h : x ≠ t) : updLog f t v x = f x := by
  simp [updLog, h]

theorem updLog_updLog (f : Tid → List Event) (t : Tid) (a b : List Event) :
    updLog (updLog f t a) t b = updLog f t b := by
  funext x
  by_cases h : x = t <;> simp [updLog, h]

theorem updLog_self (f : Tid → List Event) (t : Tid) : updLog f t (f t) = f := by
  funext x
  by_cases h : x = t <;> simp [updLog, h]

theorem run_nil (s : ProfilerState) : run s [] = s := rfl

theorem run_append (s : ProfilerState) (a b : List Op) :
    run s (a ++ b) = run (run s a) b := by
  simp [run, List.foldl_append]

theorem run_cons (s : ProfilerState) (op : Op) (ops : List Op) :
    run s (op :: ops) = run (step s op) ops := rfl

theorem modifyBack_append_singleton (f : Event → Event) (l : List Event) (e : Event) :
    modifyBack f (l ++ [e]) = l ++ [f e] := by
  induction l with
  | nil => rfl
  | cons a l ih =>
    cases l with
    | nil => rfl
    | cons b l => simpa [modifyBack] using ih

theorem modifyBack_length (f : Event → Event) (l : List Event) :
    (modifyBack f l).length = l.length := by
  induction l with
  | nil => rfl
  | cons a l ih =>
    cases l with
    | nil => rfl
    | cons b l => simpa [modifyBack] using ih

theorem modifyBack_pres (P : Event → Prop) (f : Event → Event)
    (hf : ∀ e, P e → P (f e)) (l : List Event) (hl : ∀ e ∈ l, P e) :
    ∀ e ∈ modifyBack f l, P e := by
  induction l with
  | nil => simp [modifyBack]
  | cons a l ih =>
    cases l with
    | nil =>
      intro e he
      simp [modifyBack] at he
      subst he
      exact hf a (hl a (by simp))
    | cons b l =>
      intro e he
      simp only [modifyBack, List.mem_cons] at he
      rcases he with he | he
      · exact he ▸ hl a (by simp)
      · exact ih (fun x hx => hl x (List.mem_cons_of_mem a hx)) e
          (by simpa using he)

/-! ## The merge loop of `endFrame` -/

theorem mergeFold_snd (ts : List Tid) (logs : Tid → List Event)
    (merged : List Event) (hnd : ts.Nodup) :
    (ts.foldl mergeStep (logs, merged)).2 = merged ++ (ts.map logs).flatten := by
  induction ts generalizing logs merged with
  | nil => simp
  | cons t ts ih =>
    rcases List.nodup_cons.mp hnd with ⟨hmem, hnd2⟩
    have hcongr : ts.map (updLog logs t []) = ts.map logs :=
      List.map_congr_left fun u hu =>
        updLog_other logs t [] u (fun h => hmem (h ▸ hu))
    calc ((t :: ts).foldl mergeStep (logs, merged)).2
        = (ts.foldl mergeStep (updLog logs t [], merged ++ logs t)).2 := rfl
      _ = (merged ++ logs t) ++ (ts.map (updLog logs t [])).flatten := ih _ _ hnd2
      _ = merged ++ ((t :: ts).map logs).flatten := by
          rw [hcongr]; simp

theorem mergeFold_fst (ts : List Tid) (logs : Tid → List Event)
    (merged : List Event) (u : Tid) :
    (ts.foldl mergeStep (logs, merged)).1 u = if u ∈ ts then [] else logs u := by
  induction ts generalizing logs merged with
  | nil => simp
  | cons t ts ih =>
    have hstep : ((t :: ts).foldl mergeStep (logs, merged)).1 u
        = (ts.foldl mergeStep (updLog logs t [], merged ++ logs t)).1 u := rfl
    rw [hstep, ih]
    by_cases hu : u ∈ ts
    · simp [hu]
    · by_cases hut : u = t
      · subst hut
        simp [hu, updLog_same]
      · simp [hu, hut, updLog_other logs t [] u hut]

theorem mergeFold_mem (ts : List Tid) (logs : Tid → List Event)
    (merged : List Event) (e : Event)
    (he : e ∈ (ts.foldl mergeStep (logs, merged)).2) :
    e ∈ merged ∨ ∃ t ∈ ts, e ∈ logs t := by
  induction ts generalizing logs merged with
  | nil => exact Or.inl (by simpa using he)
  | cons t ts ih =>
    have hstep : (ts.foldl mergeStep (updLog logs t [], merged ++ logs t)).2
        = ((t :: ts).foldl mergeStep (logs, merged)).2 := rfl
    rcases ih (updLog logs t []) (merged ++ logs t) (hstep ▸ he) with hm | ⟨u, hu, heu⟩
    · rcases List.mem_append.mp hm with h | h
      · exact Or.inl h
      · exact Or.inr ⟨t, by simp, h⟩
    · by_cases hut : u = t
      · subst hut
        rw [updLog_same] at heu
        simp at heu
      · rw [updLog_other logs t [] u hut] at heu
        exact Or.inr ⟨u, List.mem_cons_of_mem t hu, heu⟩

theorem endFrame_frameEvents (s : ProfilerState) (hnd : s.allThreadBuffers.Nodup) :
    (endFrame s).frameEvents
      = s.frameEvents ++ (s.allThreadBuffers.map s.threadEvents).flatten :=
  mergeFold_snd s.allThreadBuffers s.threadEvents s.frameEvents hnd

theorem endFrame_threadEvents (s : ProfilerState) (u : Tid) :
    (endFrame s).threadEvents u
      = if u ∈ s.allThreadBuffers then [] else s.threadEvents u :=
  mergeFold_fst s.allThreadBuffers s.threadEvents s.frameEvents u

theorem endFrame_threadNames (s : ProfilerState) :
    (endFrame s).threadNames = s.threadNames := rfl

theorem endFrame_allThreadBuffers (s : ProfilerState) :
    (endFrame s).allThreadBuffers = s.allThreadBuffers := rfl

theorem endFrame_frameStart (s : ProfilerState) :
    (endFrame s).frameStart = s.frameStart := rfl

/-! ## Per-operation frame lemmas -/

theorem pushStart_threadNames (t : Tid) (n : String) (c : Nat) (cat : String)
    (now : ℤ) (s : ProfilerState) :
    (pushStart t n c cat now s).threadNames = s.threadNames := by
  unfold pushStart
  split <;> dsimp only <;> split <;> rfl

theorem pushStart_frameEvents (t : Tid) (n : String) (c : Nat) (cat : String)
    (now : ℤ) (s : ProfilerState) :
    (pushStart t n c cat now s).frameEvents = s.frameEvents := by
  unfold pushStart
  split <;> dsimp only <;> split <;> rfl

theorem pushStart_frameStart (t : Tid) (n : String) (c : Nat) (cat : String)
    (now : ℤ) (s : ProfilerState) :
    (pushStart t n c cat now s).frameStart = s.frameStart := by
  unfold pushStart
  split <;> dsimp only <;> split <;> rfl

theorem pushEnd_threadNames (t : Tid) (now : ℤ) (s : ProfilerState) :
    (pushEnd t now s).threadNames = s.threadNames := by
  unfold pushEnd
  split <;> rfl

theorem pushEnd_frameEvents (t : Tid) (now : ℤ) (s : ProfilerState) :
    (pushEnd t now s).frameEvents = s.frameEvents := by
  unfold pushEnd
  split <;> rfl

theorem pushEnd_allThreadBuffers (t : Tid) (now : ℤ) (s : ProfilerState) :
    (pushEnd t now s).allThreadBuffers = s.allThreadBuffers := by
  unfold pushEnd
  split <;> rfl

theorem setThreadName_threadEvents (t : Tid) (n : String) (s : ProfilerState) :
    (setThreadName t n s).threadEvents = s.threadEvents := rfl

/-! ## Reachable-state invariant

Every state reachable from the static initial state satisfies: the thread
registry has no duplicate entries; unregistered threads have empty logs; no
log exceeds `kMaxEventsPerThread`; every event in a thread's log carries that
thread's hashed id. -/

def GoodState (s : ProfilerState) : Prop :=
  s.allThreadBuffers.Nodup
  ∧ (∀ t : Tid, t ∉ s.allThreadBuffers → s.threadEvents t = [])
  ∧ (∀ t : Tid, (s.threadEvents t).length ≤ kMaxEventsPerThread)
  ∧ (∀ t : Tid, ∀ e ∈ s.threadEvents t, e.threadId = hashTid t)

theorem goodState_initial : GoodState initialState := by
  refine ⟨List.nodup_nil, fun t _ => rfl, fun t => ?_, fun t e he => ?_⟩
  · simp [initialState, kMaxEventsPerThread]
  · simp [initialState] at he

theorem goodState_beginFrame (now : ℤ) (s : ProfilerState) (h : GoodState s) :
    GoodState (beginFrame now s) := h

theorem goodState_setThreadName (t : Tid) (n : String) (s : ProfilerState)
    (h : GoodState s) : GoodState (setThreadName t n s) := h

theorem goodState_endFrame (s : ProfilerState) (h : GoodState s) :
    GoodState (endFrame s) := by
  obtain ⟨hnd, hempty, hlen, hid⟩ := h
  refine ⟨hnd, fun t ht => ?_, fun t => ?_, fun t e he => ?_⟩
  · rw [endFrame_threadEvents]
    simp only [endFrame_allThreadBuffers] at ht
    simp [ht, hempty t ht]
  · rw [endFrame_threadEvents]
    split
    · simp
    · exact hlen t
  · rw [endFrame_threadEvents] at he
    split at he
    · simp at he
    · exact hid t e he

theorem goodState_pushEnd (t : Tid) (now : ℤ) (s : ProfilerState)
    (h : GoodState s) : GoodState (pushEnd t now s) := by
  obtain ⟨hnd, hempty, hlen, hid⟩ := h
  unfold pushEnd
  split
  · exact ⟨hnd, hempty, hlen, hid⟩
  · refine ⟨hnd, fun u hu => ?_, fun u => ?_, fun u e he => ?_⟩
    · by_cases hut : u = t
      · subst hut
        simp only at hu
        rw [hempty u hu] at *
        simp [updLog_same, modifyBack]
      · simpa [updLog_other _ _ _ _ hut] using hempty u hu
    · by_cases hut : u = t
      · subst hut
        simpa [updLog_same, modifyBack_length] using hlen u
      · simpa [updLog_other _ _ _ _ hut] using hlen u
    · by_cases hut : u = t
      · subst hut
        simp only [updLog_same] at he
        refine modifyBack_pres (fun e => e.threadId = hashTid u) _
          (fun e hpe => ?_) _ (hid u) e he
        simpa [finalizeEvt] using hpe
      · exact hid u e (by simpa [updLog_other _ _ _ _ hut] using he)

theorem goodState_pushStart (t : Tid) (n : String) (c : Nat) (cat : String)
    (now : ℤ) (s : ProfilerState) (h : GoodState s) :
    GoodState (pushStart t n c cat now s) := by
  obtain ⟨hnd, hempty, hlen, hid⟩ := h
  unfold pushStart
  by_cases hreg : t ∈ s.allThreadBuffers
  · simp only [hreg, if_true]
    split
    · exact ⟨hnd, hempty, hlen, hid⟩
    · rename_i hcap
      push_neg at hcap
      refine ⟨hnd, fun u hu => ?_, fun u => ?_, fun u e he => ?_⟩
      · have hut : u ≠ t := fun hcontra => hu (hcontra ▸ hreg)
        simpa [updLog_other _ _ _ _ hut] using hempty u hu
      · by_cases hut : u = t
        · subst hut
          simpa [updLog_same] using hcap
        · simpa [updLog_other _ _ _ _ hut] using hlen u
      · by_cases hut : u = t
        · subst hut
          simp only [updLog_same, List.mem_append, List.mem_singleton] at he
          rcases he with he | he
          · exact hid u e he
          · simp [he]
        · exact hid u e (by simpa [updLog_other _ _ _ _ hut] using he)
  · simp only [hreg, if_false]
    have hnd2 : (s.allThreadBuffers ++ [t]).Nodup := by
      simp [List.nodup_append, hnd, hreg]
    split
    · exact ⟨hnd2, fun u hu => hempty u (fun hc => hu (by simp [hc])),
        hlen, hid⟩
    · rename_i hcap
      push_neg at hcap
      refine ⟨hnd2, fun u hu => ?_, fun u => ?_, fun u e he => ?_⟩
      · have hut : u ≠ t := by
          intro hcontra
          exact hu (by simp [hcontra])
        have hu2 : u ∉ s.allThreadBuffers := fun hc => hu (by simp [hc])
        simpa [updLog_other _ _ _ _ hut] using hempty u hu2
      · by_cases hut : u = t
        · subst hut
          simpa [updLog_same] using hcap
        · simpa [updLog_other _ _ _ _ hut] using hlen u
      · by_cases hut : u = t
        · subst hut
          simp only [updLog_same, List.mem_append, List.mem_singleton] at he
          rcases he with he | he
          · exact hid u e he
          · simp [he]
        · exact hid u e (by simpa [updLog_other _ _ _ _ hut] using he)

theorem goodState_step (s : ProfilerState) (op : Op) (h : GoodState s) :
    GoodState (step s op) := by
  cases op with
  | opBeginFrame now => exact goodState_beginFrame now s h
  | opEndFrame => exact goodState_endFrame s h
  | opPushStart t n c cat now => exact goodState_pushStart t n c cat now s h
  | opPushEnd t now => exact goodState_pushEnd t now s h
  | opSetThreadName t n => exact goodState_setThreadName t n s h

theorem goodState_run (s : ProfilerState) (ops : List Op) (h : GoodState s) :
    GoodState (run s ops) := by
  induction ops generalizing s with
  | nil => exact h
  | cons op ops ih => exact ih (step s op) (goodState_step s op h)

/-! ## Single-thread paired (non-nested) traces

A `ZoneCall` is one `push_start`/`push_end` pair issued back to back by the
same thread: the start is observed at `startAt`, the matching end at `endAt`,
with no other operation of that thread in between (nesting depth one). -/

structure ZoneCall where
  name : String
  color : Nat
  category : String
  startAt : ℤ
  endAt : ℤ
deriving Repr, DecidableEq

/-- The two API calls of one depth-one zone. -/
def pairOps (t : Tid) (z : ZoneCall) : List Op :=
  [Op.opPushStart t z.name z.color z.category z.startAt, Op.opPushEnd t z.endAt]

/-- A properly paired, non-nested single-thread trace. -/
def pairedTrace (t : Tid) (zs : List ZoneCall) : List Op :=
  (zs.map (pairOps t)).flatten

/-- The Event that a depth-one zone leaves in the log once its `push_end` has
run, for a frame that started at `fs`. -/
def finalEvent (fs : ℤ) (t : Tid) (z : ZoneCall) : Event :=
  { name := z.name, startMs := z.startAt - fs, durationMs := z.endAt - z.startAt
    threadId := hashTid t, color := z.color, category := z.category }

/-- The profiler state after `begin_frame` at `fs` (from the initial state)
followed by the paired trace of `zs` on thread `t`. -/
def midState (fs : ℤ) (t : Tid) (zs : List ZoneCall) : ProfilerState :=
  { threadEvents := updLog (fun _ => []) t (zs.map (finalEvent fs t))
    frameEvents := []
    threadNames := fun _ => none
    frameStart := fs
    allThreadBuffers := if zs = [] then [] else [t]
    totalEventCount := zs.length }

theorem run_pairedTrace (fs : ℤ) (t : Tid) (zs : List ZoneCall)
    (hlen : zs.length ≤ kMaxEventsPerThread) :
    run (beginFrame fs initialState) (pairedTrace t zs) = midState fs t zs := by
  induction zs using List.reverseRecOn with
  | nil =>
    show beginFrame fs initialState = midState fs t []
    simp [beginFrame, initialState, midState, updLog_self]
  | append_singleton zs z ih =>
    have hlen2 : zs.length ≤ kMaxEventsPerThread := by
      simp only [List.length_append, List.length_singleton] at hlen
      omega
    have hcap : ¬ kMaxEventsPerThread ≤ zs.length := by
      simp only [List.length_append, List.length_singleton] at hlen
      omega
    have hsplit : pairedTrace t (zs ++ [z]) = pairedTrace t zs ++ pairOps t z := by
      simp [pairedTrace]
    rw [hsplit, run_append, ih hlen2]
    show pushEnd t z.endAt
        (pushStart t z.name z.color z.category z.startAt (midState fs t zs))
        = midState fs t (zs ++ [z])
    have hstart : pushStart t z.name z.color z.category z.startAt (midState fs t zs)
        = { threadEvents := updLog (fun _ => []) t
              (zs.map (finalEvent fs t) ++
                [{ name := z.name, startMs := z.startAt, durationMs := -1
                   threadId := hashTid t, color := z.color, category := z.category }])
            frameEvents := []
            threadNames := fun _ => none
            frameStart := fs
            allThreadBuffers := [t]
            totalEventCount := zs.length + 1 } := by
      by_cases hz : zs = []
      · subst hz
        simp [pushStart, midState, updLog_same, updLog_updLog, updLog_self, hcap]
        decide
      · simp [pushStart, midState, updLog_same, updLog_updLog, hcap, hz]
    rw [hstart]
    have hback :
        modifyBack (finalizeEvt fs z.endAt)
          (zs.map (finalEvent fs t) ++
            [{ name := z.name, startMs := z.startAt, durationMs := -1
               threadId := hashTid t, color := z.color, category := z.category }])
          = (zs ++ [z]).map (finalEvent fs t) := by
      rw [modifyBack_append_singleton]
      simp [finalizeEvt, finalEvent]
    simp [pushEnd, midState, updLog_same, updLog_updLog, hback]

/-! ## Claim C1 -/

/-- C1 counterexample: the properly nested, in-capacity single-thread trace
start "A"; start "B"; end; end (nesting depth two, ends in LIFO order) leaves
the outer zone "A" unfinalized in the merged frame: its `durationMs` is still
`-1 < 0` after `end_frame`.  `pushEventEnd` rewrites `threadEvents.back()`
unconditionally instead of locating the last element with `durationMs < 0`,
so the second end re-finalizes "B" and never touches "A". -/
theorem C1_nested_zones_cex :
    ((run initialState
        [Op.opBeginFrame 0,
         Op.opPushStart 0 "A" 0 "" 1,
         Op.opPushStart 0 "B" 0 "" 2,
         Op.opPushEnd 0 3,
         Op.opPushEnd 0 4,
         Op.opEndFrame]).frameEvents.map Event.durationMs) = [-1, 2]
    ∧ ¬ (∀ e ∈ (run initialState
        [Op.opBeginFrame 0,
         Op.opPushStart 0 "A" 0 "" 1,
         Op.opPushStart 0 "B" 0 "" 2,
         Op.opPushEnd 0 3,
         Op.opPushEnd 0 4,
         Op.opEndFrame]).frameEvents, 0 ≤ e.durationMs) :=
  ⟨by decide, by decide⟩

/-- C1 (amended): for any sequence of `push_start`/`push_end` calls on a single
thread in which every `push_end` immediately follows the `push_start` it closes
(non-nested, depth-one pairing) and that is within capacity, each `push_end`
finalizes exactly the event appended by its `push_start`, and after `end_frame`
the merged events for that thread are precisely one finalized Event per zone —
in particular their number equals the number of start calls and, provided each
zone's end timestamp is not earlier than its start timestamp, each has
`durationMs ≥ 0`. -/
theorem C1_paired_zones_balanced (fs : ℤ) (t : Tid) (zs : List ZoneCall)
    (hlen : zs.length ≤ kMaxEventsPerThread)
    (hmono : ∀ z ∈ zs, z.startAt ≤ z.endAt) :
    (run initialState
        ([Op.opBeginFrame fs] ++ pairedTrace t zs ++ [Op.opEndFrame])).frameEvents
      = zs.map (finalEvent fs t)
    ∧ (run initialState
        ([Op.opBeginFrame fs] ++ pairedTrace t zs ++ [Op.opEndFrame])).frameEvents.length
      = zs.length
    ∧ ∀ e ∈ (run initialState
        ([Op.opBeginFrame fs] ++ pairedTrace t zs ++ [Op.opEndFrame])).frameEvents,
        0 ≤ e.durationMs := by
  have h0 : run initialState ([Op.opBeginFrame fs] ++ pairedTrace t zs ++ [Op.opEndFrame])
      = endFrame (run (beginFrame fs initialState) (pairedTrace t zs)) := by
    rw [run_append, run_append]
    rfl
  have hmerged : (run initialState
      ([Op.opBeginFrame fs] ++ pairedTrace t zs ++ [Op.opEndFrame])).frameEvents
      = zs.map (finalEvent fs t) := by
    rw [h0, run_pairedTrace fs t zs hlen]
    have hnd : (midState fs t zs).allThreadBuffers.Nodup := by
      by_cases hz : zs = [] <;> simp [midState, hz]
    rw [endFrame_frameEvents _ hnd]
    by_cases hz : zs = [] <;> simp [midState, hz, updLog_same]
  refine ⟨hmerged, by rw [hmerged]; simp, ?_⟩
  intro e he
  rw [hmerged] at he
  rcases List.mem_map.mp he with ⟨z, hz, rfl⟩
  have := hmono z hz
  simp only [finalEvent]
  omega

/-- C1 witness: one depth-one zone started at t=1 and ended at t=3 inside a
frame that began at t=0 merges to exactly one event with offset 1 and
duration 2. -/
theorem C1_paired_zones_balanced_witness :
    (run initialState
        ([Op.opBeginFrame 0]
          ++ pairedTrace 0 [⟨"physics", 5, "sim", 1, 3⟩]
          ++ [Op.opEndFrame])).frameEvents
      = [finalEvent 0 0 ⟨"physics", 5, "sim", 1, 3⟩] :=
  (C1_paired_zones_balanced 0 0 [⟨"physics", 5, "sim", 1, 3⟩]
    (by decide) (by decide)).1

/-! ## Claim C2 -/

/-- C2 counterexample: a `push_end` issued on a non-empty log that contains no
unfinalized event is NOT a no-op.  After start(t=1)/end(t=2) the single logged
event is finalized with `durationMs = 1`; a second, unmatched `push_end` at
t=5 rewrites it to `durationMs = 4`, mutating an already-finalized event. -/
theorem C2_unmatched_end_cex :
    ((run initialState
        [Op.opBeginFrame 0, Op.opPushStart 0 "A" 0 "" 1,
         Op.opPushEnd 0 2]).threadEvents 0).map Event.durationMs = [1]
    ∧ ((run initialState
        [Op.opBeginFrame 0, Op.opPushStart 0 "A" 0 "" 1,
         Op.opPushEnd 0 2, Op.opPushEnd 0 5]).threadEvents 0).map Event.durationMs = [4] :=
  ⟨by decide, by decide⟩

/-- C2 (amended): if the calling thread's log is empty, `push_end` is a no-op
(the entire profiler state is unchanged and no error is raised); if the log is
non-empty — whether or not an unfinalized Event exists — `push_end` always
rewrites the last Event in place via `durationMs = now - startMs;
startMs -= frameStart`, even when that Event was already finalized. -/
theorem C2_push_end_empty_noop :
    (∀ (t : Tid) (now : ℤ) (s : ProfilerState),
      s.threadEvents t = [] → pushEnd t now s = s)
    ∧ (∀ (t : Tid) (now : ℤ) (s : ProfilerState) (l : List Event) (e : Event),
      s.threadEvents t = l ++ [e] →
      (pushEnd t now s).threadEvents t = l ++ [finalizeEvt s.frameStart now e]) := by
  constructor
  · intro t now s h
    simp [pushEnd, h]
  · intro t now s l e h
    simp [pushEnd, h, updLog_same, modifyBack_append_singleton]

/-- C2 witness: `push_end` on the empty initial log leaves the state intact,
and an unmatched `push_end` at t=5 on a log holding one finalized event
rewrites that event with `finalizeEvt`. -/
theorem C2_push_end_empty_noop_witness :
    pushEnd 0 7 initialState = initialState
    ∧ (pushEnd 0 5 (run initialState
        [Op.opBeginFrame 0, Op.opPushStart 0 "A" 0 "" 1,
         Op.opPushEnd 0 2])).threadEvents 0
      = [finalizeEvt (run initialState
          [Op.opBeginFrame 0, Op.opPushStart 0 "A" 0 "" 1,
           Op.opPushEnd 0 2]).frameStart 5
          { name := "A", startMs := 1, durationMs := 1
            threadId := 0, color := 0, category := "" }] :=
  ⟨C2_push_end_empty_noop.1 0 7 initialState rfl,
   C2_push_end_empty_noop.2 0 5 _ []
     { name := "A", startMs := 1, durationMs := 1
       threadId := 0, color := 0, category := "" } (by decide)⟩

/-! ## Claim C3 -/

/-- C3 counterexample: a zone that is still open when `end_frame` runs leaves
its ThreadLocalLog and enters `merged_events` carrying the unfinalized
sentinel `durationMs = -1 < 0`: `endFrame` copies each registered buffer
verbatim, finalized or not. -/
theorem C3_unfinalized_merged_cex :
    ((run initialState
        [Op.opBeginFrame 0, Op.opPushStart 0 "open" 0 "" 1,
         Op.opEndFrame]).frameEvents.map Event.durationMs) = [-1]
    ∧ ¬ (∀ e ∈ (run initialState
        [Op.opBeginFrame 0, Op.opPushStart 0 "open" 0 "" 1,
         Op.opEndFrame]).frameEvents, 0 ≤ e.durationMs) :=
  ⟨by decide, by decide⟩

/-- C3 (amended): `end_frame` copies thread logs verbatim into the merged
buffer, so a merged frame consists only of Events with `durationMs ≥ 0`
exactly when every Event sitting in the registered logs (and in the previous
contents of the merged buffer) was already finalized when `end_frame` ran;
unfinalized Events are not filtered out. -/
theorem C3_merged_nonneg_of_finalized (s : ProfilerState)
    (hlogs : ∀ t ∈ s.allThreadBuffers, ∀ e ∈ s.threadEvents t, 0 ≤ e.durationMs)
    (hframe : ∀ e ∈ s.frameEvents, 0 ≤ e.durationMs) :
    ∀ e ∈ (endFrame s).frameEvents, 0 ≤ e.durationMs := by
  intro e he
  have he2 : e ∈ (s.allThreadBuffers.foldl mergeStep (s.threadEvents, s.frameEvents)).2 := he
  rcases mergeFold_mem s.allThreadBuffers s.threadEvents s.frameEvents e he2 with h | ⟨t, ht, het⟩
  · exact hframe e h
  · exact hlogs t ht e het

/-- C3 witness: after one fully finalized zone (start at t=1, end at t=2 in a
frame begun at t=0), the merged copy of that zone's Event has a non-negative
duration. -/
theorem C3_merged_nonneg_of_finalized_witness :
    0 ≤ ({ name := "A", startMs := 1, durationMs := 1
           threadId := 0, color := 0, category := "" } : Event).durationMs :=
  C3_merged_nonneg_of_finalized
    (run initialState
      [Op.opBeginFrame 0, Op.opPushStart 0 "A" 0 "" 1, Op.opPushEnd 0 2])
    (by decide) (by decide)
    { name := "A", startMs := 1, durationMs := 1
      threadId := 0, color := 0, category := "" }
    (by decide)

/-! ## Claim C4: capacity bound -/

/-- One `push_start` call and the data it carries. -/
structure StartCall where
  name : String
  color : Nat
  category : String
  startAt : ℤ
deriving Repr, DecidableEq

/-- The API operation of one `push_start` call by thread `t`. -/
def startOp (t : Tid) (c : StartCall) : Op :=
  Op.opPushStart t c.name c.color c.category c.startAt

/-- A run of consecutive `push_start` calls by one thread. -/
def startsTrace (t : Tid) (cs : List StartCall) : List Op := cs.map (startOp t)

/-- The unfinalized Event a successful `push_start` appends. -/
def startEvent (t : Tid) (c : StartCall) : Event :=
  { name := c.name, startMs := c.startAt, durationMs := -1
    threadId := hashTid t, color := c.color, category := c.category }

/-- The profiler state after `begin_frame` at `fs` (from the initial state)
followed by `cs.length` `push_start` calls on thread `t`: only the first
`kMaxEventsPerThread` of them append an event, the rest are dropped. -/
def startsMid (fs : ℤ) (t : Tid) (cs : List StartCall) : ProfilerState :=
  { threadEvents := updLog (fun _ => [])
      t ((cs.take kMaxEventsPerThread).map (startEvent t))
    frameEvents := []
    threadNames := fun _ => none
    frameStart := fs
    allThreadBuffers := if cs = [] then [] else [t]
    totalEventCount := min cs.length kMaxEventsPerThread }

theorem run_startsTrace (fs : ℤ) (t : Tid) (cs : List StartCall) :
    run (beginFrame fs initialState) (startsTrace t cs) = startsMid fs t cs := by
  induction cs using List.reverseRecOn with
  | nil =>
    show beginFrame fs initialState = startsMid fs t []
    simp [beginFrame, initialState, startsMid, updLog_self]
  | append_singleton cs c ih =>
    have hsplit : startsTrace t (cs ++ [c]) = startsTrace t cs ++ [startOp t c] := by
      simp [startsTrace]
    rw [hsplit, run_append, ih]
    show pushStart t c.name c.color c.category c.startAt (startsMid fs t cs)
        = startsMid fs t (cs ++ [c])
    have hloglen : ((startsMid fs t cs).threadEvents t).length
        = min kMaxEventsPerThread cs.length := by
      simp [startsMid, updLog_same, List.length_take]
    by_cases hcap : kMaxEventsPerThread ≤ cs.length
    · have hz : cs ≠ [] := by
        intro h
        rw [h] at hcap
        simp [kMaxEventsPerThread] at hcap
      have htake : (cs ++ [c]).take kMaxEventsPerThread = cs.take kMaxEventsPerThread :=
        List.take_append_of_le_length hcap
      have hcond : kMaxEventsPerThread ≤ ((startsMid fs t cs).threadEvents t).length := by
        rw [hloglen]
        omega
      have hmin : min (cs.length + 1) kMaxEventsPerThread
          = min cs.length kMaxEventsPerThread := by
        omega
      simp [pushStart, startsMid, hz, hcond, htake, updLog_same,
        List.length_append, hmin]
      omega
    · push_neg at hcap
      have htake : (cs ++ [c]).take kMaxEventsPerThread
          = cs ++ [c] := by
        apply List.take_of_length_le
        simp only [List.length_append, List.length_singleton]
        omega
      have htake2 : cs.take kMaxEventsPerThread = cs := by
        apply List.take_of_length_le
        omega
      have hcond : ¬ kMaxEventsPerThread ≤ ((startsMid fs t cs).threadEvents t).length := by
        rw [hloglen]
        omega
      have hmin1 : min cs.length kMaxEventsPerThread = cs.length := by omega
      have hmin2 : min (cs.length + 1) kMaxEventsPerThread = cs.length + 1 := by omega
      have hK0 : ¬ kMaxEventsPerThread = 0 := by decide
      by_cases hz : cs = []
      · subst hz
        have htake1 : ∀ e : Event, List.take kMaxEventsPerThread [e] = [e] :=
          fun e => List.take_of_length_le (by simp [kMaxEventsPerThread])
        simp only [startsMid] at hcond ⊢
        simp [pushStart, updLog_same, updLog_updLog, updLog_self, hcond,
          startEvent, hmin2, hK0, htake1]
        decide
      · simp only [startsMid] at hcond ⊢
        simp [pushStart, updLog_same, updLog_updLog, hcond, hz, htake, htake2,
          startEvent, hmin1, hmin2, List.length_append, hK0,
          List.take_of_length_le]
        omega

/-- C4: (i) in every state reachable from the initial state, no thread's log
ever holds more than `kMaxEventsPerThread` (= 1024) Events; (ii) a
`push_start` issued by a registered thread whose log already has exactly
`kMaxEventsPerThread` entries is a silent no-op (the whole state is
unchanged, no error); (iii) issuing `kMaxEventsPerThread` or more
`push_start` calls on one thread within one frame yields exactly
`kMaxEventsPerThread` Events for that thread after the merge, never more. -/
theorem C4_capacity_bound :
    (∀ (ops : List Op) (t : Tid),
      ((run initialState ops).threadEvents t).length ≤ kMaxEventsPerThread)
    ∧ (∀ (t : Tid) (n : String) (c : Nat) (cat : String) (now : ℤ)
        (s : ProfilerState),
      t ∈ s.allThreadBuffers →
      (s.threadEvents t).length = kMaxEventsPerThread →
      pushStart t n c cat now s = s)
    ∧ (∀ (fs : ℤ) (t : Tid) (cs : List StartCall),
      kMaxEventsPerThread ≤ cs.length →
      (run initialState
        ([Op.opBeginFrame fs] ++ startsTrace t cs
          ++ [Op.opEndFrame])).frameEvents.length = kMaxEventsPerThread) := by
  refine ⟨?_, ?_, ?_⟩
  · intro ops t
    exact (goodState_run initialState ops goodState_initial).2.2.1 t
  · intro t n c cat now s hreg hfull
    simp [pushStart, hreg, hfull]
  · intro fs t cs hcap
    have hz : cs ≠ [] := by
      intro h
      rw [h] at hcap
      simp [kMaxEventsPerThread] at hcap
    have h0 : run initialState
        ([Op.opBeginFrame fs] ++ startsTrace t cs ++ [Op.opEndFrame])
        = endFrame (run (beginFrame fs initialState) (startsTrace t cs)) := by
      rw [run_append, run_append]
      rfl
    rw [h0, run_startsTrace]
    have hnd : (startsMid fs t cs).allThreadBuffers.Nodup := by
      simp [startsMid, hz]
    rw [endFrame_frameEvents _ hnd]
    simp [startsMid, hz, updLog_same, List.length_take]
    omega

/-- C4 witness: (i) after one `push_start` the log respects the bound;
(ii) a `push_start` against a full (1024-entry) registered log changes
nothing; (iii) 1025 `push_start` calls in one frame merge to exactly 1024
events. -/
theorem C4_capacity_bound_witness :
    ((run initialState [Op.opPushStart 0 "A" 0 "" 1]).threadEvents 0).length
      ≤ kMaxEventsPerThread
    ∧ pushStart 0 "B" 0 "" 9
        { threadEvents := updLog (fun _ => []) 0
            (List.replicate 1024
              { name := "A", startMs := 1, durationMs := -1
                threadId := 0, color := 0, category := "" })
          frameEvents := []
          threadNames := fun _ => none
          frameStart := 0
          allThreadBuffers := [0]
          totalEventCount := 1024 }
        = { threadEvents := updLog (fun _ => []) 0
              (List.replicate 1024
                { name := "A", startMs := 1, durationMs := -1
                  threadId := 0, color := 0, category := "" })
            frameEvents := []
            threadNames := fun _ => none
            frameStart := 0
            allThreadBuffers := [0]
            totalEventCount := 1024 }
    ∧ (run initialState
        ([Op.opBeginFrame 0]
          ++ startsTrace 0 (List.replicate 1025 ⟨"A", 0, "", 1⟩)
          ++ [Op.opEndFrame])).frameEvents.length = kMaxEventsPerThread :=
  ⟨C4_capacity_bound.1 [Op.opPushStart 0 "A" 0 "" 1] 0,
   C4_capacity_bound.2.1 0 "B" 0 "" 9 _ (by simp)
     (by simp only [updLog_same, List.length_replicate]; rfl),
   C4_capacity_bound.2.2 0 0 (List.replicate 1025 ⟨"A", 0, "", 1⟩)
     (by rw [List.length_replicate]; decide)⟩

/-! ## Claim C5: frame isolation -/

theorem mergeFold_snd_all_empty (ts : List Tid) (logs : Tid → List Event)
    (m : List Event) (h : ∀ t, logs t = []) :
    (ts.foldl mergeStep (logs, m)).2 = m := by
  induction ts generalizing logs m with
  | nil => rfl
  | cons t ts ih =>
    show (ts.foldl mergeStep (updLog logs t [], m ++ logs t)).2 = m
    rw [h t, List.append_nil]
    apply ih
    intro u
    by_cases hu : u = t <;> simp [updLog, hu, h]

theorem endFrame_all_empty (s : ProfilerState)
    (hun : ∀ t, t ∉ s.allThreadBuffers → s.threadEvents t = []) :
    ∀ t, (endFrame s).threadEvents t = [] := by
  intro t
  rw [endFrame_threadEvents]
  split
  · rfl
  · exact hun t (by assumption)

/-- Replaying operations that never record (`push_end` or `set_thread_name`
only) from a state whose logs and merged buffer are all empty keeps them all
empty. -/
theorem run_no_record_empty (mid : List Op) (s : ProfilerState)
    (hmid : ∀ op ∈ mid, (∃ t now, op = Op.opPushEnd t now)
      ∨ ∃ t n, op = Op.opSetThreadName t n)
    (hempty : ∀ t, s.threadEvents t = []) (hframe : s.frameEvents = []) :
    (∀ t, (run s mid).threadEvents t = []) ∧ (run s mid).frameEvents = [] := by
  induction mid generalizing s with
  | nil => exact ⟨hempty, hframe⟩
  | cons op ops ih =>
    have hops : ∀ op2 ∈ ops, (∃ t now, op2 = Op.opPushEnd t now)
        ∨ ∃ t n, op2 = Op.opSetThreadName t n :=
      fun op2 hop2 => hmid op2 (List.mem_cons_of_mem op hop2)
    rcases hmid op (by simp) with ⟨t, now, rfl⟩ | ⟨t, n, rfl⟩
    · have hstep : step s (Op.opPushEnd t now) = s := by
        show pushEnd t now s = s
        simp [pushEnd, hempty t]
      rw [run_cons, hstep]
      exact ih s hops hempty hframe
    · rw [run_cons]
      exact ih (setThreadName t n s) hops hempty hframe

/-- C5 counterexample: an Event recorded before a `begin_frame` call DOES
appear in the `merged_events` produced by the next `end_frame`: `beginFrame`
clears only `frameEvents`, never the thread logs, so the stale event survives
into the next merge. -/
theorem C5_stale_before_begin_cex :
    ((run initialState
        [Op.opPushStart 0 "stale" 0 "" 1, Op.opBeginFrame 2,
         Op.opEndFrame]).frameEvents.map Event.name) = ["stale"] := by
  decide

/-- C5 (amended): Events that were already merged by an `end_frame` (or that
sat in thread logs before it) never appear in the `merged_events` produced by
the end of the next frame: after `end_frame` followed by `begin_frame` every
log and the merged buffer are empty, so if no new `push_start` happens in the
new frame, the next `end_frame` produces an empty merged buffer.  (Events
recorded between the `end_frame` and the `begin_frame` are NOT isolated — see
the counterexample — because `begin_frame` clears only the merged buffer.) -/
theorem C5_frame_isolation (s : ProfilerState) (now : ℤ) (mid : List Op)
    (hun : ∀ t, t ∉ s.allThreadBuffers → s.threadEvents t = [])
    (hmid : ∀ op ∈ mid, (∃ t now2, op = Op.opPushEnd t now2)
      ∨ ∃ t n, op = Op.opSetThreadName t n) :
    (run (beginFrame now (endFrame s)) (mid ++ [Op.opEndFrame])).frameEvents = [] := by
  have h1 : ∀ t, (beginFrame now (endFrame s)).threadEvents t = [] :=
    endFrame_all_empty s hun
  obtain ⟨he, hf⟩ := run_no_record_empty mid (beginFrame now (endFrame s)) hmid h1 rfl
  rw [run_append]
  show (endFrame (run (beginFrame now (endFrame s)) mid)).frameEvents = []
  calc (endFrame (run (beginFrame now (endFrame s)) mid)).frameEvents
      = (run (beginFrame now (endFrame s)) mid).frameEvents :=
        mergeFold_snd_all_empty _ _ _ he
    _ = [] := hf

/-- C5 witness: after a frame that recorded one zone is ended and a new frame
begins, a no-recording frame (one stray `push_end`, one rename) merges to an
empty buffer — nothing from the previous frame leaks through. -/
theorem C5_frame_isolation_witness :
    (run (beginFrame 9 (endFrame (run initialState
        [Op.opBeginFrame 0, Op.opPushStart 0 "A" 0 "" 1, Op.opPushEnd 0 2])))
      ([Op.opPushEnd 0 10, Op.opSetThreadName 0 "W"]
        ++ [Op.opEndFrame])).frameEvents = [] :=
  C5_frame_isolation _ 9 [Op.opPushEnd 0 10, Op.opSetThreadName 0 "W"]
    (goodState_run initialState
      [Op.opBeginFrame 0, Op.opPushStart 0 "A" 0 "" 1, Op.opPushEnd 0 2]
      goodState_initial).2.1
    (by
      intro op hop
      rcases List.mem_cons.mp hop with rfl | hop2
      · exact Or.inl ⟨0, 10, rfl⟩
      · rcases List.mem_singleton.mp hop2 with rfl
        exact Or.inr ⟨0, "W", rfl⟩)

/-! ## Claim C6: effect of `end_frame` on the merged buffer -/

/-- C6 counterexample: `end_frame` does not clear `merged_events` before
repopulating.  After a frame with one zone, a second `end_frame` with no
intervening recording finds all logs empty — so the claimed
clear-then-repopulate behaviour would leave `merged_events` empty — yet the
buffer still holds the previous merge's event "A". -/
theorem C6_double_end_frame_cex :
    ((run initialState
        [Op.opBeginFrame 0, Op.opPushStart 0 "A" 0 "" 1, Op.opPushEnd 0 2,
         Op.opEndFrame, Op.opEndFrame]).frameEvents.map Event.name) = ["A"]
    ∧ (run initialState
        [Op.opBeginFrame 0, Op.opPushStart 0 "A" 0 "" 1, Op.opPushEnd 0 2,
         Op.opEndFrame, Op.opEndFrame]).threadEvents 0 = [] :=
  ⟨by decide, by decide⟩

/-- C6 (amended): `end_frame` APPENDS the registered thread logs (in
registration order) to `merged_events` without clearing it — the clearing
happens in `begin_frame` — and empties every registered log; consequently a
second `end_frame` with no intervening recording leaves `merged_events`
exactly unchanged (not equal to a repopulation from the now-empty logs, which
would be empty). -/
theorem C6_end_frame_appends (s : ProfilerState)
    (hnd : s.allThreadBuffers.Nodup) :
    (endFrame s).frameEvents
      = s.frameEvents ++ (s.allThreadBuffers.map s.threadEvents).flatten
    ∧ (∀ t ∈ s.allThreadBuffers, (endFrame s).threadEvents t = [])
    ∧ (endFrame (endFrame s)).frameEvents = (endFrame s).frameEvents := by
  refine ⟨endFrame_frameEvents s hnd, fun t ht => ?_, ?_⟩
  · rw [endFrame_threadEvents]
    simp [ht]
  · have hnd2 : (endFrame s).allThreadBuffers.Nodup := by
      rw [endFrame_allThreadBuffers]
      exact hnd
    rw [endFrame_frameEvents _ hnd2]
    have hflat : ((endFrame s).allThreadBuffers.map (endFrame s).threadEvents).flatten
        = [] := by
      apply List.flatten_eq_nil_iff.mpr
      intro l hl
      rcases List.mem_map.mp hl with ⟨t, ht, rfl⟩
      rw [endFrame_allThreadBuffers] at ht
      rw [endFrame_threadEvents]
      simp [ht]
    rw [hflat, List.append_nil]

/-- C6 witness: applied after one recorded zone — the merge appends the one
log, clears it, and a repeated `end_frame` leaves the merged buffer as is. -/
theorem C6_end_frame_appends_witness :
    (endFrame (run initialState
        [Op.opBeginFrame 0, Op.opPushStart 0 "A" 0 "" 1,
         Op.opPushEnd 0 2])).frameEvents
      = (run initialState
          [Op.opBeginFrame 0, Op.opPushStart 0 "A" 0 "" 1,
           Op.opPushEnd 0 2]).frameEvents
        ++ ((run initialState
          [Op.opBeginFrame 0, Op.opPushStart 0 "A" 0 "" 1,
           Op.opPushEnd 0 2]).allThreadBuffers.map
          (run initialState
          [Op.opBeginFrame 0, Op.opPushStart 0 "A" 0 "" 1,
           Op.opPushEnd 0 2]).threadEvents).flatten
    ∧ (∀ t ∈ (run initialState
        [Op.opBeginFrame 0, Op.opPushStart 0 "A" 0 "" 1,
         Op.opPushEnd 0 2]).allThreadBuffers,
        (endFrame (run initialState
          [Op.opBeginFrame 0, Op.opPushStart 0 "A" 0 "" 1,
           Op.opPushEnd 0 2])).threadEvents t = [])
    ∧ (endFrame (endFrame (run initialState
        [Op.opBeginFrame 0, Op.opPushStart 0 "A" 0 "" 1,
         Op.opPushEnd 0 2]))).frameEvents
      = (endFrame (run initialState
          [Op.opBeginFrame 0, Op.opPushStart 0 "A" 0 "" 1,
           Op.opPushEnd 0 2])).frameEvents :=
  C6_end_frame_appends _ (by decide)

/-! ## Claim C7: export error handling -/

/-- One serialized record of `exportToJSON` (ChronoProfiler.cpp, lines
244-252): the JSON object built for each merged event. -/
structure ExportRecord where
  name : String
  startMs : ℤ
  durationMs : ℤ
  threadId : Nat
  threadName : String
  color : Nat
  category : String
deriving Repr, DecidableEq

/-- The record list `exportToJSON` serializes from the merged frame. -/
def exportRecords (s : ProfilerState) : List ExportRecord :=
  s.frameEvents.map fun evt =>
    { name := evt.name, startMs := evt.startMs, durationMs := evt.durationMs
      threadId := evt.threadId, threadName := getThreadName s evt.threadId
      color := evt.color, category := evt.category }

/-- `ChronoProfiler::exportToJSON` (ChronoProfiler.cpp, lines 241-258).
`canOpen` models whether `std::ofstream ofs(filename)` opened (the only
failure the source even inspects).  The result is the pair of (the profiler
state as the caller can observe it afterwards, the contents written to the
sink, if any).  The C++ function returns `void`: there is no error channel,
so the state component is the entire caller-visible outcome. -/
def exportToJSON (canOpen : Bool) (s : ProfilerState) :
    ProfilerState × Option (List ExportRecord) :=
  (s, if canOpen then some (exportRecords s) else none)

/-- C7 counterexample: with a non-empty merged frame and an unopenable sink,
`exportToJSON` writes nothing yet leaves the caller-visible outcome (the
profiler state; the function's return type is `void`) identical to that of a
successful export — the failure is silently swallowed, not surfaced as an
error. -/
theorem C7_export_failure_silent_cex :
    (exportToJSON false (run initialState
        [Op.opBeginFrame 0, Op.opPushStart 0 "A" 0 "" 1, Op.opPushEnd 0 2,
         Op.opEndFrame])).2 = none
    ∧ (exportToJSON true (run initialState
        [Op.opBeginFrame 0, Op.opPushStart 0 "A" 0 "" 1, Op.opPushEnd 0 2,
         Op.opEndFrame])).2 ≠ none
    ∧ (exportToJSON false (run initialState
        [Op.opBeginFrame 0, Op.opPushStart 0 "A" 0 "" 1, Op.opPushEnd 0 2,
         Op.opEndFrame])).1
      = (exportToJSON true (run initialState
        [Op.opBeginFrame 0, Op.opPushStart 0 "A" 0 "" 1, Op.opPushEnd 0 2,
         Op.opEndFrame])).1 :=
  ⟨rfl, by simp [exportToJSON], rfl⟩

/-- C7 (amended): when the export sink cannot accept the write, the failure
is silently swallowed — nothing is written and the caller observes exactly
what it would observe on success, with no error indication — but the second
half of the claim does hold: `export_snapshot` never mutates core profiler
state, on any outcome, so the merged frame remains readable for a retry. -/
theorem C7_export_no_mutation :
    (∀ (canOpen : Bool) (s : ProfilerState), (exportToJSON canOpen s).1 = s)
    ∧ (∀ s : ProfilerState, (exportToJSON false s).2 = none)
    ∧ (∀ s : ProfilerState,
        getEvents (exportToJSON false s).1 = getEvents s) :=
  ⟨fun _ _ => rfl, fun _ => rfl, fun _ => rfl⟩

/-! ## Claim C8: thread-name resolution -/

/-- Replaying operations none of which is a `set_thread_name` hashing to
`id` leaves the `threadNames` entry for `id` untouched. -/
theorem run_threadNames (s : ProfilerState) (ops : List Op) (id : Nat)
    (h : ∀ (t : Tid) (n : String), Op.opSetThreadName t n ∈ ops → hashTid t ≠ id) :
    (run s ops).threadNames id = s.threadNames id := by
  induction ops generalizing s with
  | nil => rfl
  | cons op ops ih =>
    have hops : ∀ (t : Tid) (n : String), Op.opSetThreadName t n ∈ ops → hashTid t ≠ id :=
      fun t n hmem => h t n (List.mem_cons_of_mem op hmem)
    have hstep : (step s op).threadNames id = s.threadNames id := by
      cases op with
      | opBeginFrame now => rfl
      | opEndFrame => rfl
      | opPushStart t n c cat now =>
        show (pushStart t n c cat now s).threadNames id = s.threadNames id
        rw [pushStart_threadNames]
      | opPushEnd t now =>
        show (pushEnd t now s).threadNames id = s.threadNames id
        rw [pushEnd_threadNames]
      | opSetThreadName t n =>
        have hne : id ≠ hashTid t := Ne.symm (h t n (by simp))
        show (setThreadName t n s).threadNames id = s.threadNames id
        simp [setThreadName, hne]
    rw [run_cons, ih (step s op) hops, hstep]

/-- C8: `get_thread_name` for an id never targeted by any `set_thread_name`
returns the fixed sentinel `"<unnamed>"`; after a thread sets its name, every
subsequent `get_thread_name` for that thread's hashed id — absent a later
rename hashing to the same id — returns that name. -/
theorem C8_name_resolution :
    (∀ (ops : List Op) (id : Nat),
      (∀ (t : Tid) (n : String), Op.opSetThreadName t n ∈ ops → hashTid t ≠ id) →
      getThreadName (run initialState ops) id = "<unnamed>")
    ∧ (∀ (s : ProfilerState) (t : Tid) (nm : String) (ops : List Op),
      (∀ (u : Tid) (n : String), Op.opSetThreadName u n ∈ ops →
        hashTid u ≠ hashTid t) →
      getThreadName (run (setThreadName t nm s) ops) (hashTid t) = nm) := by
  constructor
  · intro ops id h
    unfold getThreadName
    rw [run_threadNames initialState ops id h]
    rfl
  · intro s t nm ops h
    unfold getThreadName
    rw [run_threadNames (setThreadName t nm s) ops (hashTid t) h]
    simp [setThreadName]

/-- C8 witness: id 5 was never named, so it resolves to the sentinel; thread
0 names itself "Worker", records a zone, and its id still resolves to
"Worker". -/
theorem C8_name_resolution_witness :
    getThreadName (run initialState [Op.opPushStart 0 "A" 0 "" 1]) 5 = "<unnamed>"
    ∧ getThreadName (run (setThreadName 0 "Worker" initialState)
        [Op.opPushStart 0 "A" 0 "" 1]) (hashTid 0) = "Worker" :=
  ⟨C8_name_resolution.1 [Op.opPushStart 0 "A" 0 "" 1] 5
      (by intro t n hmem; simp at hmem),
   C8_name_resolution.2 initialState 0 "Worker" [Op.opPushStart 0 "A" 0 "" 1]
      (by intro u n hmem; simp at hmem)⟩

/-! ## Claim C9: merge ordering -/

theorem flatten_filter_nil (ts : List Tid) (logs : Tid → List Event)
    (p : Event → Bool) (h : ∀ u ∈ ts, (logs u).filter p = []) :
    ((ts.map logs).flatten).filter p = [] := by
  induction ts with
  | nil => simp
  | cons a ts ih =>
    rw [List.map_cons, List.flatten_cons, List.filter_append, h a (by simp),
      ih (fun u hu => h u (List.mem_cons_of_mem a hu))]
    rfl

theorem flatten_filter_single (ts : List Tid) (logs : Tid → List Event)
    (t : Tid) (p : Event → Bool) (hnd : ts.Nodup) (ht : t ∈ ts)
    (hfil : ∀ u ∈ ts, (logs u).filter p = if u = t then logs t else []) :
    ((ts.map logs).flatten).filter p = logs t := by
  induction ts with
  | nil => simp at ht
  | cons a ts ih =>
    rcases List.nodup_cons.mp hnd with ⟨hmem, hnd2⟩
    rw [List.map_cons, List.flatten_cons, List.filter_append]
    rcases List.mem_cons.mp ht with rfl | hts
    · rw [hfil t (by simp), if_pos rfl]
      have hrest : ((ts.map logs).flatten).filter p = [] := by
        apply flatten_filter_nil
        intro u hu
        have hut : u ≠ t := fun hc => hmem (hc ▸ hu)
        rw [hfil u (List.mem_cons_of_mem t hu), if_neg hut]
      rw [hrest, List.append_nil]
    · have hat : a ≠ t := fun hc => hmem (hc ▸ hts)
      rw [hfil a (by simp), if_neg hat, List.nil_append]
      exact ih hnd2 hts (fun u hu => hfil u (List.mem_cons_of_mem a hu))

/-- C9: in the merged buffer produced by `end_frame` (from an empty merged
buffer, as after `begin_frame`), the buffer is the concatenation of the
registered thread logs in registry (registration) order — so across threads
the relative order is registry-traversal order, not wall-clock order — and
the Events of any single registered thread `t` (those carrying its hashed
id, which is unique among registered threads by hypothesis) appear exactly as
that thread's log, i.e. in the insertion order of their `push_start` calls. -/
theorem C9_merge_ordering (s : ProfilerState) (t : Tid)
    (hnd : s.allThreadBuffers.Nodup)
    (ht : t ∈ s.allThreadBuffers)
    (hids : ∀ u ∈ s.allThreadBuffers, ∀ e ∈ s.threadEvents u, e.threadId = hashTid u)
    (hinj : ∀ u ∈ s.allThreadBuffers, hashTid u = hashTid t → u = t)
    (hframe : s.frameEvents = []) :
    (endFrame s).frameEvents = (s.allThreadBuffers.map s.threadEvents).flatten
    ∧ (endFrame s).frameEvents.filter (fun e => e.threadId == hashTid t)
      = s.threadEvents t := by
  have hmain : (endFrame s).frameEvents
      = (s.allThreadBuffers.map s.threadEvents).flatten := by
    rw [endFrame_frameEvents s hnd, hframe, List.nil_append]
  refine ⟨hmain, ?_⟩
  rw [hmain]
  apply flatten_filter_single s.allThreadBuffers s.threadEvents t _ hnd ht
  intro u hu
  by_cases hut : u = t
  · subst hut
    rw [if_pos rfl]
    apply List.filter_eq_self.mpr
    intro e he
    simp [hids u hu e he]
  · rw [if_neg hut]
    apply List.filter_eq_nil_iff.mpr
    intro e he
    have hne : hashTid u ≠ hashTid t := fun hc => hut (hinj u hu hc)
    simp [hids u hu e he, hne]

/-- C9 witness: thread 1 records zones "a1" and "a2" around thread 2's zone
"b"; the merge is `log(1) ++ log(2)` (registration order), and filtering the
merged buffer by thread 1's id returns its two events in start order. -/
theorem C9_merge_ordering_witness :
    (endFrame (run initialState
        [Op.opBeginFrame 0,
         Op.opPushStart 1 "a1" 0 "" 1, Op.opPushEnd 1 2,
         Op.opPushStart 2 "b" 0 "" 3, Op.opPushEnd 2 4,
         Op.opPushStart 1 "a2" 0 "" 5, Op.opPushEnd 1 6])).frameEvents
      = ((run initialState
        [Op.opBeginFrame 0,
         Op.opPushStart 1 "a1" 0 "" 1, Op.opPushEnd 1 2,
         Op.opPushStart 2 "b" 0 "" 3, Op.opPushEnd 2 4,
         Op.opPushStart 1 "a2" 0 "" 5, Op.opPushEnd 1 6]).allThreadBuffers.map
        (run initialState
        [Op.opBeginFrame 0,
         Op.opPushStart 1 "a1" 0 "" 1, Op.opPushEnd 1 2,
         Op.opPushStart 2 "b" 0 "" 3, Op.opPushEnd 2 4,
         Op.opPushStart 1 "a2" 0 "" 5, Op.opPushEnd 1 6]).threadEvents).flatten
    ∧ (endFrame (run initialState
        [Op.opBeginFrame 0,
         Op.opPushStart 1 "a1" 0 "" 1, Op.opPushEnd 1 2,
         Op.opPushStart 2 "b" 0 "" 3, Op.opPushEnd 2 4,
         Op.opPushStart 1 "a2" 0 "" 5,
         Op.opPushEnd 1 6])).frameEvents.filter
        (fun e => e.threadId == hashTid 1)
      = (run initialState
        [Op.opBeginFrame 0,
         Op.opPushStart 1 "a1" 0 "" 1, Op.opPushEnd 1 2,
         Op.opPushStart 2 "b" 0 "" 3, Op.opPushEnd 2 4,
         Op.opPushStart 1 "a2" 0 "" 5, Op.opPushEnd 1 6]).threadEvents 1 :=
  C9_merge_ordering _ 1 (by decide) (by decide) (by decide) (by decide) (by decide)

/-! ## Claim C10: one hash function links events to names -/

/-- `pushEventStart` either drops the call or appends an event whose
`threadId` is exactly `hashTid` of the calling thread — the same expression
`static_cast<uint32_t>(std::hash<std::thread::id>{}(std::this_thread::get_id()))`
that `setThreadName` uses as its map key. -/
theorem pushStart_threadEvents_cases (t : Tid) (n : String) (c : Nat)
    (cat : String) (now : ℤ) (s : ProfilerState) :
    (pushStart t n c cat now s).threadEvents t = s.threadEvents t
    ∨ (pushStart t n c cat now s).threadEvents t
      = s.threadEvents t ++
        [{ name := n, startMs := now, durationMs := -1
           threadId := hashTid t, color := c, category := cat }] := by
  unfold pushStart
  by_cases hreg : t ∈ s.allThreadBuffers <;>
    by_cases hcap : kMaxEventsPerThread ≤ (s.threadEvents t).length <;>
      simp [hreg, hcap, updLog_same]

/-- C10: `pushEventStart` and `setThreadName` derive the thread identifier
with the same function (`hashTid`, the 32-bit truncation of the thread-id
hash): every Event freshly recorded by thread `t` carries `threadId =
hashTid t`, and after `t` calls `set_thread_name nm`, as long as no later
rename hashes to the same id, `get_thread_name` on that same `hashTid t` —
hence on the `threadId` field of each of those Events — returns `nm`. -/
theorem C10_name_event_roundtrip (t : Tid) (nm : String) (s0 : ProfilerState)
    (ops : List Op)
    (h : ∀ (u : Tid) (n : String), Op.opSetThreadName u n ∈ ops →
      hashTid u ≠ hashTid t) :
    (∀ (n2 : String) (c : Nat) (cat : String) (now : ℤ) (s : ProfilerState),
      ∀ e ∈ (pushStart t n2 c cat now s).threadEvents t,
        e ∈ s.threadEvents t ∨ e.threadId = hashTid t)
    ∧ getThreadName (run (setThreadName t nm s0) ops) (hashTid t) = nm := by
  constructor
  · intro n2 c cat now s e he
    rcases pushStart_threadEvents_cases t n2 c cat now s with hsame | happ
    · rw [hsame] at he
      exact Or.inl he
    · rw [happ] at he
      rcases List.mem_append.mp he with he2 | he2
      · exact Or.inl he2
      · rcases List.mem_singleton.mp he2 with rfl
        exact Or.inr rfl
  · unfold getThreadName
    rw [run_threadNames (setThreadName t nm s0) ops (hashTid t) h]
    simp [setThreadName]

/-- C10 witness: the zone recorded by thread 0 from the empty initial log
carries `threadId = hashTid 0`, and after thread 0 names itself "Worker" and
records a zone, resolving `hashTid 0` yields "Worker". -/
theorem C10_name_event_roundtrip_witness :
    ({ name := "z", startMs := 3, durationMs := -1
       threadId := 0, color := 7, category := "cat" }
        ∈ initialState.threadEvents 0
      ∨ ({ name := "z", startMs := 3, durationMs := -1
           threadId := 0, color := 7, category := "cat" } : Event).threadId
        = hashTid 0)
    ∧ getThreadName (run (setThreadName 0 "Worker" initialState)
        [Op.opPushStart 0 "A" 0 "" 1]) (hashTid 0) = "Worker" :=
  ⟨(C10_name_event_roundtrip 0 "Worker" initialState [Op.opPushStart 0 "A" 0 "" 1]
      (by intro u n hmem; simp at hmem)).1 "z" 7 "cat" 3 initialState
      { name := "z", startMs := 3, durationMs := -1
        threadId := 0, color := 7, category := "cat" } (by decide),
   (C10_name_event_roundtrip 0 "Worker" initialState [Op.opPushStart 0 "A" 0 "" 1]
      (by intro u n hmem; simp at hmem)).2⟩

end ChronoProfiler
